import Mathlib

/-! Banan Stats — verification of the spec against the source.

Shallow embedding of the banan-stats repository (Go): the user-agent
analyzer (`internal/analyzer`), the store insert path
(`internal/store/store.go`), the ingest server (`cmd` main), the Traefik
middleware (cookie state machine, host normalization) and the disk-backed
event queue (`traefikstats` package).  Strings are modelled as Lean
`String`/`List Char`; Go byte slices as `List Nat`; machine integers as
`Nat`/`Int` with explicit `% 2^32` where overflow matters.
-/

set_option maxRecDepth 100000

namespace BananStats

/-! ## Byte and character helpers -/

/-- ASCII case folding: models Go case-insensitive regexp matching `(?i)`
restricted to ASCII letters. -/
def foldChar (c : Char) : Char :=
  if 'A' ≤ c ∧ c ≤ 'Z' then Char.ofNat (c.toNat + 32) else c

/-- Case-insensitive character equality. -/
def ciEq (a b : Char) : Bool := foldChar a == foldChar b

/-- UTF-8 encoding of one character, as Go obtains bytes from a string. -/
def utf8Bytes (c : Char) : List Nat :=
  let n := c.toNat
  if n < 0x80 then [n]
  else if n < 0x800 then [0xC0 ||| (n >>> 6), 0x80 ||| (n &&& 0x3F)]
  else if n < 0x10000 then
    [0xE0 ||| (n >>> 12), 0x80 ||| ((n >>> 6) &&& 0x3F), 0x80 ||| (n &&& 0x3F)]
  else
    [0xF0 ||| (n >>> 18), 0x80 ||| ((n >>> 12) &&& 0x3F),
     0x80 ||| ((n >>> 6) &&& 0x3F), 0x80 ||| (n &&& 0x3F)]

/-- Bytes of a Go string (`[]byte(s)`). -/
def strBytes (s : String) : List Nat := (s.data.map utf8Bytes).flatten

/-- Lowercase hexadecimal digit, as `encoding/hex` uses. -/
def hexDigit (n : Nat) : Char :=
  if n < 10 then Char.ofNat (48 + n) else Char.ofNat (87 + n)

/-- Two lowercase hex characters for one byte (`hex.Encode`). -/
def hexByte (b : Nat) : List Char := [hexDigit (b / 16 % 16), hexDigit (b % 16)]

/-- Hex encoding of a byte list. -/
def hexChars (bs : List Nat) : List Char := (bs.map hexByte).flatten

/-! ## SHA-256 (`crypto/sha256`), on `Nat` words mod 2^32 -/

def m32 : Nat := 4294967296

def add32 (a b : Nat) : Nat := (a + b) % m32

def rotr32 (k n : Nat) : Nat := ((n >>> k) ||| (n <<< (32 - k))) % m32

def xor3 (a b c : Nat) : Nat := Nat.xor (Nat.xor a b) c

def not32 (n : Nat) : Nat := Nat.xor n (m32 - 1)

def smallSigma0 (x : Nat) : Nat := xor3 (rotr32 7 x) (rotr32 18 x) (x >>> 3)
def smallSigma1 (x : Nat) : Nat := xor3 (rotr32 17 x) (rotr32 19 x) (x >>> 10)
def bigSigma0 (x : Nat) : Nat := xor3 (rotr32 2 x) (rotr32 13 x) (rotr32 22 x)
def bigSigma1 (x : Nat) : Nat := xor3 (rotr32 6 x) (rotr32 11 x) (rotr32 25 x)
def chFn (x y z : Nat) : Nat := Nat.xor (Nat.land x y) (Nat.land (not32 x) z)
def majFn (x y z : Nat) : Nat :=
  Nat.xor (Nat.xor (Nat.land x y) (Nat.land x z)) (Nat.land y z)

def sha256K : List Nat :=
  [1116352408, 1899447441, 3049323471, 3921009573, 961987163, 1508970993,
   2453635748, 2870763221, 3624381080, 310598401, 607225278, 1426881987,
   1925078388, 2162078206, 2614888103, 3248222580, 3835390401, 4022224774,
   264347078, 604807628, 770255983, 1249150122, 1555081692, 1996064986,
   2554220882, 2821834349, 2952996808, 3210313671, 3336571891, 3584528711,
   113926993, 338241895, 666307205, 773529912, 1294757372, 1396182291,
   1695183700, 1986661051, 2177026350, 2456956037, 2730485921, 2820302411,
   3259730800, 3345764771, 3516065817, 3600352804, 4094571909, 275423344,
   430227734, 506948616, 659060556, 883997877, 958139571, 1322822218,
   1537002063, 1747873779, 1955562222, 2024104815, 2227730452, 2361852424,
   2428436474, 2756734187, 3204031479, 3329325298]

def sha256H0 : List Nat :=
  [1779033703, 3144134277, 1013904242, 2773480762,
   1359893119, 2600822924, 528734635, 1541459225]

/-- Big-endian 8-byte encoding of the bit length. -/
def be64 (n : Nat) : List Nat :=
  [(n >>> 56) % 256, (n >>> 48) % 256, (n >>> 40) % 256, (n >>> 32) % 256,
   (n >>> 24) % 256, (n >>> 16) % 256, (n >>> 8) % 256, n % 256]

/-- Big-endian 4-byte encoding of a 32-bit word. -/
def be32 (n : Nat) : List Nat :=
  [(n >>> 24) % 256, (n >>> 16) % 256, (n >>> 8) % 256, n % 256]

/-- SHA-256 padding: 0x80, zeros to 56 mod 64, then 64-bit big-endian length. -/
def sha256Pad (msg : List Nat) : List Nat :=
  let r := msg.length % 64
  let k := (119 - r) % 64
  msg ++ [0x80] ++ List.replicate k 0 ++ be64 (8 * msg.length)

/-- 64-byte chunk into 16 big-endian 32-bit words. -/
def bytesToWords : List Nat → List Nat
  | a :: b :: c :: d :: rest => (((a * 256 + b) * 256 + c) * 256 + d) :: bytesToWords rest
  | _ => []

/-- Split into 64-byte chunks (fuel-based so the kernel can evaluate it). -/
def chunks64Aux : Nat → List Nat → List (List Nat)
  | 0, _ => []
  | fuel + 1, l =>
    if l = [] then []
    else (l.take 64) :: chunks64Aux fuel (l.drop 64)

/-- Split into 64-byte chunks. -/
def chunks64 (l : List Nat) : List (List Nat) := chunks64Aux l.length l

/-- Extend 16 schedule words by `n` more. -/
def extendW : Nat → List Nat → List Nat
  | 0, w => w
  | n + 1, w =>
    let t := w.length
    let nw := add32 (add32 (smallSigma1 (w.getD (t - 2) 0)) (w.getD (t - 7) 0))
                    (add32 (smallSigma0 (w.getD (t - 15) 0)) (w.getD (t - 16) 0))
    extendW n (w ++ [nw])

/-- One SHA-256 round on the eight-word state. -/
def sha256Round (w k : Nat) (st : List Nat) : List Nat :=
  match st with
  | [a, b, c, d, e, f, g, h] =>
    let t1 := add32 (add32 (add32 h (bigSigma1 e)) (add32 (chFn e f g) k)) w
    let t2 := add32 (bigSigma0 a) (majFn a b c)
    [add32 t1 t2, a, b, c, add32 d t1, e, f, g]
  | other => other

/-- Compress one 64-byte chunk into the hash state. -/
def sha256Compress (hs : List Nat) (chunk : List Nat) : List Nat :=
  let w := extendW 48 (bytesToWords chunk)
  let st := List.foldl (fun st p => sha256Round p.1 p.2 st) hs (w.zip sha256K)
  List.zipWith add32 hs st

/-- SHA-256 digest (32 bytes) of a byte list. -/
def sha256 (msg : List Nat) : List Nat :=
  (((chunks64 (sha256Pad msg)).foldl sha256Compress sha256H0).map be32).flatten

/-! ## UUID formatting (`uuidFromBytes`, `hashUUID` from the analyzer) -/

/-- Go `uuidFromBytes`: 16 bytes rendered as lowercase 8-4-4-4-12 hex. -/
def uuidFromBytes (b : List Nat) : String :=
  ⟨hexChars (b.take 4) ++ '-' :: hexChars ((b.drop 4).take 2) ++
   '-' :: hexChars ((b.drop 6).take 2) ++ '-' :: hexChars ((b.drop 8).take 2) ++
   '-' :: hexChars ((b.drop 10).take 6)⟩

/-- Go `hashUUID`: SHA-256 of the input, first 16 bytes in UUID shape. -/
def hashUUID (input : String) : String :=
  uuidFromBytes ((sha256 (strBytes input)).take 16)

/-- Function `uuidFromBytes` always yields a non-empty string (it contains dashes). -/
theorem uuidFromBytes_ne_empty (b : List Nat) : uuidFromBytes b ≠ "" := by
  unfold uuidFromBytes
  intro h
  have := congrArg String.data h
  simp at this

/-- Function `hashUUID` never returns the empty string. -/
theorem hashUUID_ne_empty (s : String) : hashUUID s ≠ "" :=
  uuidFromBytes_ne_empty _

/-- SHA-256 sanity check against the FIPS 180 test vector for "abc". -/
theorem sha256_abc :
    hexChars (sha256 (strBytes "abc")) =
      ("ba7816bf8f01cfea414140de5dae2223b00361a396177a9cb410ff61f20015ad").data := by
  decide

/-! ## Generic string scanning helpers -/

/-- Case-sensitive list prefix test (Go `strings.HasPrefix`). -/
def strHasPfx : List Char → List Char → Bool
  | [], _ => true
  | _ :: _, [] => false
  | p :: ps, c :: cs => p == c && strHasPfx ps cs

/-- Case-insensitive prefix test, for `(?i)` literals. -/
def ciHasPfx : List Char → List Char → Bool
  | [], _ => true
  | _ :: _, [] => false
  | p :: ps, c :: cs => ciEq p c && ciHasPfx ps cs

/-- Case-insensitive substring test (unanchored `(?i)` literal match). -/
def hasCI (pat : List Char) : List Char → Bool
  | [] => pat.isEmpty
  | c :: rest => ciHasPfx pat (c :: rest) || hasCI pat rest

/-- Try a parser at every position, leftmost first (unanchored regexp search). -/
def scanPos {α : Type} (f : List Char → Option α) : List Char → Option α
  | [] => f []
  | c :: rest =>
    match f (c :: rest) with
    | some r => some r
    | none => scanPos f rest

/-- Try indices `n, n-1, …, 0` and return the first hit: models a greedy
(maximal-first) backtracking choice of how much a star consumes. -/
def searchDown {α : Type} (p : Nat → Option α) : Nat → Option α
  | 0 => p 0
  | j + 1 =>
    match p (j + 1) with
    | some r => some r
    | none => searchDown p j

/-- Go `unicode.IsSpace` on the characters relevant to `strings.TrimSpace`. -/
def isSpaceChar (c : Char) : Bool :=
  c == ' ' || c == '\t' || c == '\n' || c == '\x0b' || c == '\x0c' || c == '\r' ||
  c.toNat == 0x85 || c.toNat == 0xA0

/-- Go `strings.TrimSpace`. -/
def trimSpaceChars (l : List Char) : List Char :=
  ((l.dropWhile isSpaceChar).reverse.dropWhile isSpaceChar).reverse

/-! ## Analyzer character classes (from the `internal/analyzer` regexps) -/

/-- Go regexp `\w` restricted to ASCII: `[0-9A-Za-z_]`. -/
def isWordChar (c : Char) : Bool := c.isAlpha || c.isDigit || c == '_'

/-- Class `[\w.\-_@]`. -/
def inClsA (c : Char) : Bool := isWordChar c || c == '.' || c == '-' || c == '@'

/-- Class `[\w.\-_@ ]`. -/
def inClsASp (c : Char) : Bool := inClsA c || c == ' '

/-- Class `[\w._@]` — the `reBeforeDash` class, which has no hyphen. -/
def inClsB (c : Char) : Bool := isWordChar c || c == '.' || c == '@'

/-- Class `[\w._@ ]`. -/
def inClsBSp (c : Char) : Bool := inClsB c || c == ' '

/-- Class `[\w.\-_@%]` — the `reBeforeSlash` class. -/
def inClsC (c : Char) : Bool := inClsA c || c == '%'

/-- Class `[\w.\-_@% ]`. -/
def inClsCSp (c : Char) : Bool := inClsC c || c == ' '

/-- Class `[\w-_]` — the `reBotContains` class. -/
def inClsW (c : Char) : Bool := isWordChar c || c == '-'

/-- Hex digit class `(?i)[0-9A-F]`. -/
def isHexDig (c : Char) : Bool :=
  c.isDigit || ('A' ≤ c && c ≤ 'F') || ('a' ≤ c && c ≤ 'f')

/-- Regexp name-token class `[A-Za-z0-9_]`. -/
def isNameChar (c : Char) : Bool := c.isAlpha || c.isDigit || c == '_'

/-- Version-token class `(?i)[A-Z0-9.]` (with letters). -/
def isVerChar (c : Char) : Bool := c.isAlpha || c.isDigit || c == '.'

/-- Class `[0-9.]`. -/
def isDigDot (c : Char) : Bool := c.isDigit || c == '.'

/-! ## `lineAgent` matcher pipeline

Each matcher embeds one compiled regexp from `internal/analyzer`, with Go
(RE2) leftmost-first and greedy semantics hand-translated. -/

/-- Regexp `reSpecial = (?i)(?:Leed|BeyondPod|360Spider|Lark|Nutch|Skype|leakix\.net|uni-app)`,
used with `FindString` (the matched text is returned with original case). -/
def specialAlts : List (List Char) :=
  ["Leed".data, "BeyondPod".data, "360Spider".data, "Lark".data,
   "Nutch".data, "Skype".data, "leakix.net".data, "uni-app".data]

def findSpecialAt (s : List Char) : Option (List Char) :=
  specialAlts.findSome? fun alt =>
    if ciHasPfx alt s then some (s.take alt.length) else none

def reSpecialFind (s : List Char) : Option (List Char) := scanPos findSpecialAt s

/-- Exactly `n` characters satisfying `p`; returns the remaining suffix. -/
def takeCount (p : Char → Bool) : Nat → List Char → Option (List Char)
  | 0, s => some s
  | n + 1, c :: rest => if p c then takeCount p n rest else none
  | _ + 1, [] => none

/-- One expected literal character. -/
def expectChar (c : Char) : List Char → Option (List Char)
  | x :: rest => if x == c then some rest else none
  | [] => none

/-- Regexp `reUUIDPrefix = (?i)^<uuid>/\d+ ([^;(/]+)`, capture group 1. -/
def reUUIDPfxGroup (s : List Char) : Option (List Char) := do
  let r1 ← takeCount isHexDig 8 s
  let r2 ← expectChar '-' r1
  let r3 ← takeCount isHexDig 4 r2
  let r4 ← expectChar '-' r3
  let r5 ← takeCount isHexDig 4 r4
  let r6 ← expectChar '-' r5
  let r7 ← takeCount isHexDig 4 r6
  let r8 ← expectChar '-' r7
  let r9 ← takeCount isHexDig 12 r8
  let r10 ← expectChar '/' r9
  let digits := r10.takeWhile Char.isDigit
  if digits.isEmpty then none
  else
    let r11 ← expectChar ' ' (r10.drop digits.length)
    let grp := r11.takeWhile fun c => !(c == ';' || c == '(' || c == '/')
    if grp.isEmpty then none else some grp

/-- Regexp `reCompatible = (?i)compatible; ([^;(/+]*[^;(/+ ])`, capture group 1:
after the literal, the longest run outside `;(/+` with trailing spaces
backtracked away (the final char may not be a space). -/
def reCompatibleAt (s : List Char) : Option (List Char) :=
  if ciHasPfx "compatible; ".data s then
    let rest := s.drop 12
    let run := rest.takeWhile fun c => !(c == ';' || c == '(' || c == '/' || c == '+')
    let core := (run.reverse.dropWhile (· == ' ')).reverse
    if core.isEmpty then none else some core
  else none

def reCompatibleGroup (s : List Char) : Option (List Char) := scanPos reCompatibleAt s

/-- Regexp `reBotBefore = (?i)^[\w.\-_@ ]*[\w.\-_@] (?:ro)?bot`, whole match
(`FindString`): greedy star backtracks from the longest class prefix. -/
def reBotBeforeFind (s : List Char) : Option (List Char) :=
  let maxP := (s.takeWhile inClsASp).length
  searchDown (fun j =>
    if j ≤ maxP then
      match s.drop j with
      | c :: ' ' :: rest =>
        if inClsA c then
          if ciHasPfx "robot".data rest then some (s.take (j + 7))
          else if ciHasPfx "bot".data rest then some (s.take (j + 5))
          else none
        else none
      | _ => none
    else none) maxP

/-- Regexp `reBotContains = (?i)\b[\w-_]+bot\b`, whole match: tried at each
position with a word boundary, greedy in the class run. -/
def botContainsAt (prev : Option Char) (s : List Char) : Option (List Char) :=
  let curWord := match s with | c :: _ => isWordChar c | [] => false
  let prevWord := match prev with | some p => isWordChar p | none => false
  if prevWord == curWord then none
  else
    let run := s.takeWhile inClsW
    searchDown (fun k =>
      if 1 ≤ k ∧ k ≤ run.length ∧ ciHasPfx "bot".data (s.drop k) then
        match s.drop (k + 3) with
        | [] => some (s.take (k + 3))
        | c :: _ => if isWordChar c then none else some (s.take (k + 3))
      else none) run.length

def reBotContainsFind : Option Char → List Char → Option (List Char)
  | prev, [] => botContainsAt prev []
  | prev, c :: rest =>
    match botContainsAt prev (c :: rest) with
    | some m => some m
    | none => reBotContainsFind (some c) rest

/-- Regexp `reTrident = (?i)Trident/[0-9.]+` — only its presence matters. -/
def tridentAt (s : List Char) : Option Unit :=
  if ciHasPfx "Trident/".data s then
    match s.drop 8 with
    | c :: _ => if isDigDot c then some () else none
    | [] => none
  else none

def hasTrident (s : List Char) : Bool := (scanPos tridentAt s).isSome

/-- Component names of `reMozillaFirst`'s trailing chain. -/
def mozChainAlts : List (List Char) :=
  ["Chrome".data, "Version".data, "Mobile".data, "Safari".data, "Mobile Safari".data]

/-- Chain `(?: (?:Chrome|Version|Mobile|Safari|Mobile Safari)/[A-Z0-9.]+)+$` —
one or more components, ending exactly at the end of the string. -/
def mozChainParse : Nat → List Char → Bool
  | 0, _ => false
  | fuel + 1, s =>
    match s with
    | ' ' :: rest =>
      mozChainAlts.any fun alt =>
        ciHasPfx alt rest &&
          (match rest.drop alt.length with
           | '/' :: r3 =>
             let run := r3.takeWhile isVerChar
             !run.isEmpty &&
               (let r4 := r3.drop run.length
                r4.isEmpty || mozChainParse fuel r4)
           | _ => false)
    | _ => false

/-- Shared shape of the three `^Mozilla/.* (name)/ver…$` regexps: greedy
`.*` means the split point is searched from the right; `.` excludes
newline. `tailChk` checks everything after `name/ver`. -/
def mozillaGroup (verChar : Char → Bool) (tailChk : List Char → Bool)
    (s : List Char) : Option (List Char) :=
  if ciHasPfx "Mozilla/".data s then
    searchDown (fun p =>
      if 8 ≤ p ∧ (((s.drop 8).take (p - 8)).all fun c => c ≠ '\n') then
        match s.drop p with
        | ' ' :: rest =>
          let name := rest.takeWhile isNameChar
          if name.isEmpty then none
          else
            match rest.drop name.length with
            | '/' :: r2 =>
              let ver := r2.takeWhile verChar
              if ver.isEmpty then none
              else if tailChk (r2.drop ver.length) then some name else none
            | _ => none
        | _ => none
      else none) s.length
  else none

/-- Regexp `reMozillaFirst = (?i)^Mozilla/.* ([A-Za-z0-9_]+)/[A-Z0-9.]+(?: comp/ver)+$`. -/
def reMozillaFirstGroup (s : List Char) : Option (List Char) :=
  mozillaGroup isVerChar (fun r => !r.isEmpty && mozChainParse (r.length + 1) r) s

/-- Tail of `reMozillaSafari`: `(?: Mobile)? Safari/[0-9.]+$`. -/
def mozSafariTail (r : List Char) : Bool :=
  (ciHasPfx " Mobile Safari/".data r &&
    (let v := r.drop 15
     !v.isEmpty && v.all isDigDot)) ||
  (ciHasPfx " Safari/".data r &&
    (let v := r.drop 8
     !v.isEmpty && v.all isDigDot))

/-- Regexp `reMozillaSafari = (?i)^Mozilla/.* ([A-Za-z0-9_]+)/[0-9.]+(?: Mobile)? Safari/[0-9.]+$`. -/
def reMozillaSafariGroup (s : List Char) : Option (List Char) :=
  mozillaGroup isDigDot mozSafariTail s

/-- Star tail of `reMozillaLast`: `(?: \([^)]+\)| Mobile| GTB[0-9.]+)*$`. -/
def mozLastStar : Nat → List Char → Bool
  | 0, s => s.isEmpty
  | fuel + 1, s =>
    match s with
    | [] => true
    | ' ' :: '(' :: r =>
      let run := r.takeWhile fun c => c ≠ ')'
      !run.isEmpty &&
        (match r.drop run.length with
         | ')' :: r2 => mozLastStar fuel r2
         | _ => false)
    | ' ' :: r =>
      (ciHasPfx "Mobile".data r && mozLastStar fuel (r.drop 6)) ||
      (ciHasPfx "GTB".data r &&
        (let run := (r.drop 3).takeWhile isDigDot
         !run.isEmpty && mozLastStar fuel (r.drop (3 + run.length))))
    | _ => false

/-- Regexp `reMozillaLast = (?i)^Mozilla/.* ([A-Za-z0-9_]+)/[a-z0-9.]+(?: \([^)]+\)| Mobile| GTB[0-9.]+)*$`. -/
def reMozillaLastGroup (s : List Char) : Option (List Char) :=
  mozillaGroup isVerChar (fun r => mozLastStar (r.length + 1) r) s

/-- Shared shape of the anchored `^(class* classNoSp) tail` group regexps:
the group is the longest class prefix whose last char is not a space and
whose continuation satisfies `tailChk`. -/
def groupBeforePat (clsSp cls : Char → Bool) (tailChk : List Char → Bool)
    (s : List Char) : Option (List Char) :=
  let maxP := (s.takeWhile clsSp).length
  searchDown (fun j =>
    if j ≤ maxP then
      match s.drop j with
      | c :: rest =>
        if cls c ∧ tailChk rest then some (s.take (j + 1)) else none
      | [] => none
    else none) maxP

/-- Regexp `reFeedIDName = (?i)^([\w.\-_@ ]*[\w.\-_@]) feed-id:`, group 1. -/
def reFeedIDNameGroup (s : List Char) : Option (List Char) :=
  groupBeforePat inClsASp inClsA (fun r => ciHasPfx " feed-id:".data r) s

/-- Regexp `reBeforeDash = (?i)^([\w._@ ]*[\w._@]) - `, group 1. -/
def reBeforeDashGroup (s : List Char) : Option (List Char) :=
  groupBeforePat inClsBSp inClsB (fun r => strHasPfx " - ".data r) s

/-- Fragment `v?\d+\.\d+` of `reBeforeVersion` (greedy optional `v`). -/
def verNumChk (r : List Char) : Bool :=
  let core := fun (l : List Char) =>
    let run := l.takeWhile Char.isDigit
    !run.isEmpty &&
      (match l.drop run.length with
       | '.' :: c :: _ => c.isDigit
       | _ => false)
  match r with
  | c :: rest => if ciEq c 'v' then core rest || core r else core r
  | [] => false

/-- Regexp `reBeforeVersion = (?i)^([\w.\-_@ ]*[\w.\-_@])[- ]v?\d+\.\d+`, group 1. -/
def reBeforeVersionGroup (s : List Char) : Option (List Char) :=
  groupBeforePat inClsASp inClsA
    (fun r =>
      match r with
      | c :: rest => (c == '-' || c == ' ') && verNumChk rest
      | [] => false) s

/-- Separator set of `reBeforeSlash`: `[/\(:\+]`. -/
def isSlashSep (c : Char) : Bool := c == '/' || c == '(' || c == ':' || c == '+'

/-- Regexp `reBeforeSlash = (?i)^([\w.\-_@% ]*[\w.\-_@%]) ?[/\(:\+]`, group 1. -/
def reBeforeSlashGroup (s : List Char) : Option (List Char) :=
  groupBeforePat inClsCSp inClsC
    (fun r =>
      match r with
      | ' ' :: c :: _ => isSlashSep c
      | c :: _ => isSlashSep c
      | [] => false) s

/-- Regexp `reSingleWord = (?i)^[\w.\-_@ ]*[\w.\-_@]$`, whole match. -/
def reSingleWordFind (s : List Char) : Option (List Char) :=
  if !s.isEmpty && s.all inClsASp &&
      (match s.getLast? with
       | some c => inClsA c
       | none => false) then
    some s
  else none

/-! ## `lineAgent` and the other analyzer leaf functions -/

/-- Go `dequote`. -/
def dequoteChars (l : List Char) : List Char :=
  if 2 ≤ l.length ∧ l.head? = some '"' ∧ l.getLast? = some '"' then
    (l.drop 1).dropLast
  else l

/-- Go `isExcludedAgent` (case-sensitive switch). -/
def isExcludedAgent (name : List Char) : Bool :=
  name == "Chrome".data || name == "Version".data || name == "Mobile".data ||
  name == "Safari".data || name == "Mobile Safari".data

/-- The fourteen matchers of `lineAgent`, in source order. -/
def agentMatchers (ua : List Char) : List (List Char) :=
  [(reSpecialFind ua).getD [],
   (reUUIDPfxGroup ua).getD [],
   (reCompatibleGroup ua).getD [],
   (reBotBeforeFind ua).getD [],
   (reBotContainsFind none ua).getD [],
   (if hasTrident ua then "Trident".data else []),
   (match reMozillaFirstGroup ua with
    | some name => if isExcludedAgent name then [] else name
    | none => []),
   (match reMozillaSafariGroup ua with
    | some name => if (name.map foldChar) == "version".data then [] else name
    | none => []),
   (reMozillaLastGroup ua).getD [],
   (reFeedIDNameGroup ua).getD [],
   (reBeforeDashGroup ua).getD [],
   (reBeforeVersionGroup ua).getD [],
   (match reBeforeSlashGroup ua with
    | some val =>
      if (val.map foldChar) == "mozilla".data ||
         ciHasPfx "mozilla".data val then []
      else val
    | none => []),
   (reSingleWordFind ua).getD []]

/-- Go `lineAgent`: first matcher whose trimmed result is non-empty. -/
def lineAgentChars (userAgent : List Char) : List Char :=
  if userAgent.isEmpty then []
  else
    let ua := dequoteChars userAgent
    (((agentMatchers ua).map trimSpaceChars).find? (!·.isEmpty)).getD []

def lineAgent (userAgent : String) : String := ⟨lineAgentChars userAgent.data⟩

/-- Regexp `reBotUA` alternatives that are plain `(?i)` literals. -/
def botUALits : List (List Char) :=
  ["bot".data, "crawl".data, "fetch".data, "node".data, "ruby".data,
   "python".data, "curl".data, "okhttp".data, "spider".data, "scan".data,
   "nutch".data, "mastodon".data, "+http".data]

/-- The `.rb` alternative of `reBotUA`: any non-newline char then `rb`. -/
def hasDotRb : List Char → Bool
  | [] => false
  | c :: rest => (c ≠ '\n' && ciHasPfx "rb".data rest) || hasDotRb rest

/-- Regexp `reBotUA = (?i)bot|crawl|fetch|node|ruby|.rb|python|curl|okhttp|spider|scan|nutch|mastodon|\+http`. -/
def matchesBotUA (ua : List Char) : Bool :=
  botUALits.any (fun lit => hasCI lit ua) || hasDotRb ua

/-- Browser agents recognized by `lineType`'s switch (case-sensitive). -/
def browserAgents : List String :=
  ["Chrome", "Firefox", "Edg", "EdgA", "EdgiOS", "Safari", "OPR",
   "YaBrowser", "Vivaldi", "SamsungBrowser", "UCBrowser"]

/-- Go `lineType` (the `path` argument is accepted but unused, as in the
source). -/
def lineType (path agent userAgent : String) : String :=
  let _ := path
  let ua := userAgent.data
  if !ua.isEmpty && hasCI "rss".data ua then "feed"
  else if browserAgents.contains agent then "browser"
  else if !ua.isEmpty && matchesBotUA ua then "bot"
  else if strHasPfx "Mozilla/".data ua then "browser"
  else "bot"

/-- Alternative `Mobile.*Safari` of `reOSiOS`: a `safari` reachable without newline. -/
def safariAfter : List Char → Bool
  | [] => false
  | c :: rest => ciHasPfx "safari".data (c :: rest) || (c ≠ '\n' && safariAfter rest)

def hasMobileSafari : List Char → Bool
  | [] => false
  | c :: rest =>
    (ciHasPfx "mobile".data (c :: rest) && safariAfter ((c :: rest).drop 6)) ||
    hasMobileSafari rest

/-- Go `lineOS`: first OS regexp hit in source order. -/
def lineOS (userAgent : String) : String :=
  let ua := userAgent.data
  if hasCI "android".data ua then "Android"
  else if hasCI "windows".data ua then "Windows"
  else if hasCI "ios".data ua || hasCI "iphone".data ua || hasCI "ipad".data ua ||
          hasMobileSafari ua then "iOS"
  else if hasCI "macos".data ua || hasCI "mac os".data ua ||
          hasCI "macintosh".data ua || hasCI "darwin".data ua then "macOS"
  else if hasCI "linux".data ua || hasCI "x11".data ua then "Linux"
  else ""

/-- Regexp `reMultiplier = (?i)(\d+) subscriber`, capture group 1: leftmost digit
run immediately followed by `" subscriber"`. -/
def findMultDigits : List Char → Option (List Char)
  | [] => none
  | c :: rest =>
    if c.isDigit then
      let run := (c :: rest).takeWhile Char.isDigit
      if ciHasPfx " subscriber".data ((c :: rest).drop run.length) then some run
      else findMultDigits rest
    else findMultDigits rest

/-- Digit-string value as a natural number. -/
def digitsToNat (l : List Char) : Nat :=
  l.foldl (fun acc c => acc * 10 + (c.toNat - 48)) 0

/-- Go `strconv.Atoi` on an all-digit string (64-bit int): errors (none)
when the value overflows the int64 range. -/
def goAtoi (l : List Char) : Option Int :=
  let v := digitsToNat l
  if v ≤ 9223372036854775807 then some (v : Int) else none

/-- Go `lineMultiplier`. -/
def lineMultiplier (userAgent : String) : Int :=
  match findMultDigits userAgent.data with
  | some digits =>
    match goAtoi digits with
    | some n => n
    | none => 1
  | none => 1

/-- Regexp `reFeedID = (?i)feed-id[=:]([A-Za-z0-9_]+)`, capture group 1. -/
def findFeedID : List Char → Option (List Char)
  | [] => none
  | c :: rest =>
    if ciHasPfx "feed-id".data (c :: rest) then
      match (c :: rest).drop 7 with
      | sep :: r2 =>
        if sep == '=' || sep == ':' then
          let run := r2.takeWhile isNameChar
          if run.isEmpty then findFeedID rest else some run
        else findFeedID rest
      | [] => findFeedID rest
    else findFeedID rest

/-- Go `extractFeedID`: empty string when no match. -/
def extractFeedID (userAgent : String) : String :=
  ⟨(findFeedID userAgent.data).getD []⟩

/-- Go `lineUniq`. -/
def lineUniq (ip userAgent agent : String) : String :=
  if userAgent ≠ "" ∧ agent ≠ "" then
    if extractFeedID userAgent ≠ "" then
      hashUUID (agent ++ "/" ++ extractFeedID userAgent)
    else if hasCI "subscriber".data userAgent.data then
      hashUUID agent
    else hashUUID (ip ++ userAgent)
  else hashUUID (ip ++ userAgent)

/-- Host part of `url.Parse(referrer)`.  Modelled from `net/url` for the
shapes the analyzer cares about: an authority after `scheme://` (or a
scheme-relative `//`), cut at the first `/`, `?` or `#`, with any
userinfo before `@` removed; `u.Host` keeps its port and case. -/
def urlHostChars (l : List Char) : List Char :=
  let afterScheme : Option (List Char) :=
    if strHasPfx "//".data l then some (l.drop 2)
    else
      (scanPos (fun suf =>
        if strHasPfx "://".data suf then some (suf.drop 3) else none) l)
  match afterScheme with
  | none => []
  | some rest =>
    let auth := rest.takeWhile fun c => !(c == '/' || c == '?' || c == '#')
    if auth.contains '@' then
      ((auth.reverse.takeWhile (· ≠ '@')).reverse)
    else auth

/-- Go `lineRefDomain`. -/
def lineRefDomain (referrer : String) : String :=
  if referrer = "" then ""
  else
    let host := urlHostChars referrer.data
    if host.isEmpty then ""
    else if strHasPfx "www.".data host then ⟨host.drop 4⟩
    else ⟨host⟩

/-! ## The `Line` record and `Analyze` -/

/-- Struct `analyzer.Line`. -/
structure Line where
  Date : String
  Time : String
  Host : String
  Path : String
  Query : String
  IP : String
  UserAgent : String
  Referrer : String
  Typ : String
  Agent : String
  OS : String
  RefDomain : String
  Mult : Int
  SetCookie : String
  Uniq : String
  SecondVisit : Bool
deriving Repr, DecidableEq

/-- Go `Analyze`: fills each empty field in source order (mutation of the
`*Line` modelled as a let-chain).  The Go field `Type` is spelled `Typ`
here because `Type` is a Lean keyword. -/
def Analyze (line : Line) : Line :=
  let l1 := if line.Agent = "" then { line with Agent := lineAgent line.UserAgent } else line
  let l2 := if l1.Typ = "" then { l1 with Typ := lineType l1.Path l1.Agent l1.UserAgent } else l1
  let l3 := if l2.OS = "" then { l2 with OS := lineOS l2.UserAgent } else l2
  let l4 := if l3.Mult = 0 then { l3 with Mult := lineMultiplier l3.UserAgent } else l3
  let l5 := if l4.Uniq = "" then { l4 with Uniq := lineUniq l4.IP l4.UserAgent l4.Agent } else l4
  if l5.RefDomain = "" then { l5 with RefDomain := lineRefDomain l5.Referrer } else l5

/-! ## Normal form of `Analyze` -/

/-- Agent after `Analyze`. -/
def agentOf (x : Line) : String :=
  if x.Agent = "" then lineAgent x.UserAgent else x.Agent

/-- Type after `Analyze` (computed with the already-filled agent). -/
def typOf (x : Line) : String :=
  if x.Typ = "" then lineType x.Path (agentOf x) x.UserAgent else x.Typ

/-- OS after `Analyze`. -/
def osOf (x : Line) : String :=
  if x.OS = "" then lineOS x.UserAgent else x.OS

/-- Mult after `Analyze`. -/
def multOf (x : Line) : Int :=
  if x.Mult = 0 then lineMultiplier x.UserAgent else x.Mult

/-- Uniq after `Analyze` (computed with the already-filled agent). -/
def uniqOf (x : Line) : String :=
  if x.Uniq = "" then lineUniq x.IP x.UserAgent (agentOf x) else x.Uniq

/-- RefDomain after `Analyze`. -/
def refDomainOf (x : Line) : String :=
  if x.RefDomain = "" then lineRefDomain x.Referrer else x.RefDomain

/-- Function `Analyze` in one record update: each enrichment field expressed as a
function of the input line. -/
theorem Analyze_eq (x : Line) :
    Analyze x = { x with
                    Agent := agentOf x, Typ := typOf x, OS := osOf x,
                    Mult := multOf x, Uniq := uniqOf x, RefDomain := refDomainOf x } := by
  unfold Analyze typOf osOf multOf uniqOf refDomainOf
  by_cases h1 : x.Agent = "" <;> by_cases h2 : x.Typ = "" <;>
    by_cases h3 : x.OS = "" <;> by_cases h4 : x.Mult = 0 <;>
    by_cases h5 : x.Uniq = "" <;> by_cases h6 : x.RefDomain = "" <;>
    simp [agentOf, h1, h2, h3, h4, h5, h6]

/-- Function `lineUniq` always returns a hash, never the empty string. -/
theorem lineUniq_ne_empty (ip ua ag : String) : lineUniq ip ua ag ≠ "" := by
  unfold lineUniq
  split_ifs <;> exact hashUUID_ne_empty _

/-- After `Analyze`, `Uniq` is never empty. -/
theorem Analyze_Uniq_ne_empty (x : Line) : (Analyze x).Uniq ≠ "" := by
  rw [Analyze_eq]
  unfold uniqOf
  by_cases h : x.Uniq = ""
  · simpa [h] using lineUniq_ne_empty x.IP x.UserAgent (agentOf x)
  · simp [h]

/-! ## Store (`internal/store/store.go`) -/

/-- One row of the `stats` table; empty strings become SQL NULL via
`nullString` / `nullUUID`. -/
structure StatRow where
  date : Option String
  time : Option String
  host : Option String
  path : Option String
  query : Option String
  ip : Option String
  user_agent : Option String
  referrer : Option String
  typ : Option String
  agent : Option String
  os : Option String
  ref_domain : Option String
  mult : Int
  set_cookie : Option String
  uniq : Option String
deriving Repr, DecidableEq

/-- Go `nullString`. -/
def nullString (s : String) : Option String := if s = "" then none else some s

/-- Go `nullUUID`. -/
def nullUUID (s : String) : Option String := if s = "" then none else some s

/-- The values bound by the `INSERT INTO stats` statement for one line. -/
def rowOfLine (l : Line) : StatRow :=
  { date := nullString l.Date, time := nullString l.Time, host := nullString l.Host,
    path := nullString l.Path, query := nullString l.Query, ip := nullString l.IP,
    user_agent := nullString l.UserAgent, referrer := nullString l.Referrer,
    typ := nullString l.Typ, agent := nullString l.Agent, os := nullString l.OS,
    ref_domain := nullString l.RefDomain, mult := l.Mult,
    set_cookie := nullUUID l.SetCookie, uniq := nullUUID l.Uniq }

/-- Statement `UPDATE stats SET uniq = ? WHERE set_cookie = ?` with the same UUID as
both parameters. -/
def applyUniqUpdate (u : String) (rows : List StatRow) : List StatRow :=
  rows.map fun r =>
    if r.set_cookie = some u then { r with uniq := some u } else r

/-- Processing of one line inside the `Insert` transaction: run the
analyzer, insert the row, and on a confirmed second visit run the update. -/
def insertLine (rows : List StatRow) (line : Line) : List StatRow :=
  let line := Analyze line
  let rows := rows ++ [rowOfLine line]
  if line.SecondVisit ∧ line.Uniq ≠ "" then applyUniqUpdate line.Uniq rows else rows

/-- Go `Store.Insert` (success path of the transaction): lines applied in
order to the table. -/
def Insert (rows : List StatRow) (lines : List Line) : List StatRow :=
  lines.foldl insertLine rows

/-- A `Line` whose string fields are empty and whose `Mult` is zero, as the
ingest server builds them before setting individual fields. -/
def emptyLine : Line :=
  { Date := "", Time := "", Host := "", Path := "", Query := "", IP := "",
    UserAgent := "", Referrer := "", Typ := "", Agent := "", OS := "",
    RefDomain := "", Mult := 0, SetCookie := "", Uniq := "", SecondVisit := false }

/-- Filling a field if it equals the default is idempotent when the refill
value cannot change. -/
theorem fill_idem {α : Type} [DecidableEq α] (d v r : α) :
    (if (if v = d then r else v) = d then r else (if v = d then r else v)) =
      (if v = d then r else v) := by
  by_cases h : v = d <;> by_cases h2 : r = d <;> simp [h, h2]

/-! ## Claim C8 — analyzer idempotence -/

/-- C8: the analyzer is idempotent — running `Analyze` a second time on an
already-analyzed line changes no field: `Analyze (Analyze x) = Analyze x`. -/
theorem C8_analyze_idempotent (x : Line) : Analyze (Analyze x) = Analyze x := by
  rw [Analyze_eq x, Analyze_eq]
  simp only [agentOf, typOf, osOf, multOf, uniqOf, refDomainOf]
  simp [fill_idem]

/-! ## Claim C1 — tentative first-visit rows -/

/-- C1 (amended): for every tentative first-visit event (`set_cookie`
non-empty, `uniq` empty, `second_visit = false`), `Store.Insert` appends a
single row whose `set_cookie` column is set to the event's UUID — but its
`uniq` column is NOT null: `Analyze` fills `Uniq` (with
`lineUniq ip userAgent agent`) before the insert binds the columns. -/
theorem C1_tentative_insert (l : Line) (t : List StatRow)
    (hsc : l.SetCookie ≠ "") (_hu : l.Uniq = "") (hsv : l.SecondVisit = false) :
    Insert t [l] = t ++ [rowOfLine (Analyze l)] ∧
    (rowOfLine (Analyze l)).set_cookie = some l.SetCookie ∧
    (rowOfLine (Analyze l)).uniq ≠ none := by
  have hA := Analyze_eq l
  refine ⟨?_, ?_, ?_⟩
  · show insertLine t l = t ++ [rowOfLine (Analyze l)]
    unfold insertLine
    have : (Analyze l).SecondVisit = false := by rw [hA]; exact hsv
    simp [this]
  · rw [hA]; simp [rowOfLine, nullUUID, hsc]
  · have hne := Analyze_Uniq_ne_empty l
    simp [rowOfLine, nullUUID, hne]

/-- Concrete tentative first-visit line used by the C1 theorems. -/
def c1Line : Line :=
  { emptyLine with IP := "1.2.3.4",
                   SetCookie := "11111111-1111-1111-1111-111111111111" }

/-- C1 counterexample: for a concrete tentative first-visit event the
inserted row's `uniq` column is not NULL, contradicting the claim that the
analyzer/store leaves `uniq` unfilled for such rows. -/
theorem C1_counterexample :
    c1Line.SetCookie ≠ "" ∧ c1Line.Uniq = "" ∧ c1Line.SecondVisit = false ∧
    (Insert [] [c1Line]).map StatRow.uniq ≠ [none] := by
  decide

/-- C1 witness: the amended theorem applied at the concrete line. -/
theorem C1_witness :
    c1Line.SetCookie ≠ "" ∧ c1Line.Uniq = "" ∧ c1Line.SecondVisit = false ∧
    (Insert [] [c1Line] = [] ++ [rowOfLine (Analyze c1Line)] ∧
     (rowOfLine (Analyze c1Line)).set_cookie = some c1Line.SetCookie ∧
     (rowOfLine (Analyze c1Line)).uniq ≠ none) :=
  ⟨by decide, by decide, by decide,
   C1_tentative_insert c1Line [] (by decide) (by decide) (by decide)⟩

/-! ## Claim C3 — mult bounds -/

/-- C3 (amended): for every line entering `Store.Insert` with `Mult = 0`
(as all ingested events do), the inserted row's `mult` is non-negative,
and `mult ≠ 1` only when the user-agent advertises exactly `mult`
subscribers (the `(\d+) subscriber` regexp matched and parsed to `mult`).
`mult ≥ 1` fails precisely for a UA advertising zero subscribers. -/
theorem C3_mult_bounds (l : Line) (h : l.Mult = 0) :
    0 ≤ (rowOfLine (Analyze l)).mult ∧
    ((rowOfLine (Analyze l)).mult ≠ 1 →
      ∃ ds, findMultDigits l.UserAgent.data = some ds ∧
        goAtoi ds = some (rowOfLine (Analyze l)).mult) := by
  have hm : (rowOfLine (Analyze l)).mult = lineMultiplier l.UserAgent := by
    rw [Analyze_eq]; simp [rowOfLine, multOf, h]
  rw [hm]
  unfold lineMultiplier
  cases hf : findMultDigits l.UserAgent.data with
  | none => simp [hf]
  | some ds =>
    simp only [hf]
    cases ha : goAtoi ds with
    | none => simp [ha]
    | some n =>
      simp only [ha]
      refine ⟨?_, fun _ => ⟨ds, rfl, ha⟩⟩
      unfold goAtoi at ha
      by_cases hv : digitsToNat ds ≤ 9223372036854775807
      · simp [hv] at ha
        omega
      · simp [hv] at ha

/-- Concrete line advertising zero subscribers. -/
def c3Line : Line := { emptyLine with UserAgent := "0 subscriber" }

/-- C3 counterexample: a UA advertising `0 subscriber` produces an
inserted row with `mult = 0`, refuting `mult ≥ 1`. -/
theorem C3_counterexample :
    (Insert [] [c3Line]).map StatRow.mult = [0] ∧
    ¬ (∀ r ∈ Insert [] [c3Line], 1 ≤ r.mult) := by
  decide

/-- C3 witness: the amended theorem applied at a concrete subscriber UA. -/
theorem C3_witness :
    0 ≤ (rowOfLine (Analyze c3Line)).mult ∧
    ((rowOfLine (Analyze c3Line)).mult ≠ 1 →
      ∃ ds, findMultDigits c3Line.UserAgent.data = some ds ∧
        goAtoi ds = some (rowOfLine (Analyze c3Line)).mult) :=
  C3_mult_bounds c3Line rfl

/-! ## Claim C6 — feed-id uniq hash -/

/-- C6 (amended): for every line with empty `Uniq` whose user-agent
contains `feed-id:ID` (or `feed-id=ID`), **provided the analyzer derived a
non-empty agent**, the analyzer sets
`uniq = hashUUID (agent ++ "/" ++ ID)`.  When the derived agent is empty,
the analyzer falls back to `hashUUID (ip ++ userAgent)` instead. -/
theorem C6_feed_id_uniq (l : Line) (hu : l.Uniq = "") (hua : l.UserAgent ≠ "")
    (ha : (Analyze l).Agent ≠ "") (hf : extractFeedID l.UserAgent ≠ "") :
    (Analyze l).Uniq = hashUUID ((Analyze l).Agent ++ "/" ++ extractFeedID l.UserAgent) := by
  have hag : (Analyze l).Agent = agentOf l := by rw [Analyze_eq]
  have huq : (Analyze l).Uniq = lineUniq l.IP l.UserAgent (agentOf l) := by
    rw [Analyze_eq]; simp [uniqOf, hu]
  rw [hag] at ha
  rw [huq, hag]
  unfold lineUniq
  simp [hua, ha, hf]

/-- Concrete line from the repository's `TestLineUniqFeedID` test. -/
def c6WitnessLine : Line :=
  { emptyLine with IP := "1.2.3.4",
                   UserAgent := "Feedbin feed-id:1373711 - 192 subscribers" }

/-- C6 witness: the amended theorem applied at the Feedbin test line. -/
theorem C6_witness :
    (Analyze c6WitnessLine).Uniq =
      hashUUID ((Analyze c6WitnessLine).Agent ++ "/" ++ extractFeedID c6WitnessLine.UserAgent) :=
  C6_feed_id_uniq c6WitnessLine (by decide) (by decide) (by decide) (by decide)

/-- Concrete line whose UA contains `feed-id:123` but yields an empty
agent (no matcher fires on `"(feed-id:123"`). -/
def c6CexLine : Line :=
  { emptyLine with IP := "1.2.3.4", UserAgent := "(feed-id:123" }

/-- C6 counterexample: with an empty derived agent the analyzer does NOT
set `uniq = hashUUID (agent ++ "/" ++ ID)` — it hashes `ip ++ userAgent`. -/
theorem C6_counterexample :
    extractFeedID c6CexLine.UserAgent = "123" ∧ c6CexLine.Uniq = "" ∧
    (Analyze c6CexLine).Uniq ≠
      hashUUID ((Analyze c6CexLine).Agent ++ "/" ++ extractFeedID c6CexLine.UserAgent) := by
  decide

/-! ## Character-folding lemmas -/

theorem char_le_iff_toNat {a b : Char} : a ≤ b ↔ a.toNat ≤ b.toNat := by
  rw [Char.le_def, UInt32.le_def, BitVec.le_def]
  rfl

theorem char_toNat_ofNat (n : Nat) (h : n < 0xd800) : (Char.ofNat n).toNat = n := by
  rw [Char.ofNat, dif_pos (Or.inl h : Nat.isValidChar n)]
  simp [Char.ofNatAux, Char.toNat, UInt32.ofNat', UInt32.toNat]

/-- Folding an already-folded character changes nothing. -/
theorem foldChar_idem (c : Char) : foldChar (foldChar c) = foldChar c := by
  unfold foldChar
  by_cases h : 'A' ≤ c ∧ c ≤ 'Z'
  · rw [if_pos h]
    have h65 : 65 ≤ c.toNat := char_le_iff_toNat.mp h.1
    have h90 : c.toNat ≤ 90 := char_le_iff_toNat.mp h.2
    have hval : (Char.ofNat (c.toNat + 32)).toNat = c.toNat + 32 :=
      char_toNat_ofNat _ (by omega)
    rw [if_neg]
    intro hc
    have hz : ('Z').toNat = 90 := by decide
    have := char_le_iff_toNat.mp hc.2
    rw [hval, hz] at this
    omega
  · rw [if_neg h, if_neg h]

/-- Folding never produces a colon from a non-colon. -/
theorem foldChar_eq_colon {c : Char} (h : foldChar c = ':') : c = ':' := by
  unfold foldChar at h
  by_cases hu : 'A' ≤ c ∧ c ≤ 'Z'
  · rw [if_pos hu] at h
    have h65 : 65 ≤ c.toNat := char_le_iff_toNat.mp hu.1
    have h90 : c.toNat ≤ 90 := char_le_iff_toNat.mp hu.2
    have hval : (Char.ofNat (c.toNat + 32)).toNat = c.toNat + 32 :=
      char_toNat_ofNat _ (by omega)
    have := congrArg Char.toNat h
    rw [hval] at this
    have hcolon : (':').toNat = 58 := by decide
    rw [hcolon] at this
    omega
  · rwa [if_neg hu] at h

/-! ## Middleware cookie state machine (`readCookie`, `part_004`) -/

/-- Go `cookieState`. -/
structure CookieState where
  setCookie : String
  uniq : String
  secondVisit : Bool
  needsSet : Bool
  value : String
deriving Repr, DecidableEq

/-- Go `newUUID`, with the 16 `crypto/rand` bytes passed explicitly: the
version and variant bits are forced before formatting. -/
def newUUID (b : List Nat) : String :=
  uuidFromBytes
    (b.take 6 ++ [((b.getD 6 0) &&& 0x0f) ||| 0x40, b.getD 7 0,
                  ((b.getD 8 0) &&& 0x3f) ||| 0x80] ++ (b.drop 9).take 7)

/-- Go `readCookie`: the request cookie is `none` when absent (or on a
parse error), otherwise `some value`; `minted` is the UUID `newUUID`
would mint on the first-visit path. -/
def readCookie (cookie : Option String) (minted : String) : CookieState :=
  match cookie with
  | none =>
    { setCookie := minted, uniq := "", secondVisit := false, needsSet := true,
      value := "?" ++ minted }
  | some v =>
    if v = "" then
      { setCookie := minted, uniq := "", secondVisit := false, needsSet := true,
        value := "?" ++ minted }
    else if strHasPfx "?".data v.data then
      { setCookie := "", uniq := ⟨v.data.drop 1⟩, secondVisit := true,
        needsSet := true, value := ⟨v.data.drop 1⟩ }
    else
      { setCookie := "", uniq := v, secondVisit := false, needsSet := false,
        value := "" }

/-- The three-case cookie machine as the spec words it: no cookie (or
empty value) mints `U`, sets the response cookie to `"?" + U`, and yields
`set_cookie = U`, `uniq` empty, `second_visit = false`; a value `?U`
strips the prefix, sets the response cookie to `U`, and yields
`set_cookie` empty, `uniq = U`, `second_visit = true`; any other value
`V` sends no Set-Cookie and yields `set_cookie` empty, `uniq = V`,
`second_visit = false`. -/
def specReadCookie (cookie : Option String) (minted : String) : CookieState :=
  match cookie with
  | none =>
    { setCookie := minted, uniq := "", secondVisit := false, needsSet := true,
      value := "?" ++ minted }
  | some v =>
    match v.data with
    | [] =>
      { setCookie := minted, uniq := "", secondVisit := false, needsSet := true,
        value := "?" ++ minted }
    | '?' :: rest =>
      { setCookie := "", uniq := ⟨rest⟩, secondVisit := true,
        needsSet := true, value := ⟨rest⟩ }
    | _ :: _ =>
      { setCookie := "", uniq := v, secondVisit := false, needsSet := false,
        value := "" }

/-! ## Claim C4 — the cookie machine refines the spec -/

/-- Helper: `readCookie` agrees with the spec-worded machine everywhere. -/
theorem readCookie_eq_specReadCookie (cookie : Option String) (minted : String) :
    readCookie cookie minted = specReadCookie cookie minted := by
  cases cookie with
  | none => rfl
  | some v =>
    obtain ⟨data⟩ := v
    cases data with
    | nil => rfl
    | cons c rest =>
      unfold readCookie specReadCookie
      by_cases hc : c = '?'
      · subst hc
        simp [strHasPfx, String.ext_iff]
      · have hne : (⟨c :: rest⟩ : String) ≠ "" := by
          simp [String.ext_iff]
        simp only [strHasPfx]
        rw [if_neg hne]
        have : (c == '?') = false := by simp [hc]
        simp only [this, Bool.false_and, Bool.and_eq_true]
        cases rest <;> simp [hc] <;> exact fun h => hc h.symm

/-- C4: for every incoming request cookie and minted UUID, the
middleware's `readCookie` implements exactly the three-case state machine
described by the spec (no cookie or empty value mints and marks
tentative; a `?`-prefixed value confirms; any other value is a silent
returning visitor). -/
theorem C4_cookie_machine (cookie : Option String) (minted : String) :
    readCookie cookie minted = specReadCookie cookie minted :=
  readCookie_eq_specReadCookie cookie minted

/-! ## Claim C5 — exactly one identity field -/

/-- C5 (amended): for every cookie value except the bare `"?"`, the
synthesized state has exactly one of `setCookie` / `uniq` non-empty, and
`secondVisit` implies `uniq` non-empty.  The cookie value `"?"` violates
both parts: it yields `uniq = ""` with `secondVisit = true`. -/
theorem C5_identity_fields (cookie : Option String) (b : List Nat)
    (hq : cookie ≠ some "?") :
    (((readCookie cookie (newUUID b)).setCookie ≠ "" ∧
      (readCookie cookie (newUUID b)).uniq = "") ∨
     ((readCookie cookie (newUUID b)).setCookie = "" ∧
      (readCookie cookie (newUUID b)).uniq ≠ "")) ∧
    ((readCookie cookie (newUUID b)).secondVisit = true →
      (readCookie cookie (newUUID b)).uniq ≠ "") := by
  have hm : newUUID b ≠ "" := uuidFromBytes_ne_empty _
  rw [readCookie_eq_specReadCookie]
  cases cookie with
  | none => exact ⟨Or.inl ⟨hm, rfl⟩, by simp [specReadCookie]⟩
  | some v =>
    obtain ⟨data⟩ := v
    cases data with
    | nil => exact ⟨Or.inl ⟨hm, rfl⟩, by simp [specReadCookie]⟩
    | cons c rest =>
      by_cases hc : c = '?'
      · subst hc
        cases rest with
        | nil => exact absurd rfl hq
        | cons d tail =>
          refine ⟨Or.inr ⟨rfl, ?_⟩, fun _ => ?_⟩ <;>
            simp [specReadCookie, String.ext_iff]
      · have h1 : specReadCookie (some ⟨c :: rest⟩) (newUUID b) =
            { setCookie := "", uniq := ⟨c :: rest⟩, secondVisit := false,
              needsSet := false, value := "" } := by
          unfold specReadCookie
          cases rest <;> simp [hc]
        rw [h1]
        refine ⟨Or.inr ⟨rfl, ?_⟩, by simp⟩
        simp [String.ext_iff]

/-- C5 counterexample: the cookie value `"?"` (tentative marker with an
empty UUID) makes both `setCookie` and `uniq` empty while
`secondVisit = true`, violating both invariant parts. -/
theorem C5_counterexample :
    (readCookie (some "?") (newUUID (List.replicate 16 0))).setCookie = "" ∧
    (readCookie (some "?") (newUUID (List.replicate 16 0))).uniq = "" ∧
    (readCookie (some "?") (newUUID (List.replicate 16 0))).secondVisit = true := by
  decide

/-- C5 witness: the amended theorem applied at a returning-visitor cookie. -/
theorem C5_witness :
    some "abc" ≠ some "?" ∧
    ((((readCookie (some "abc") (newUUID (List.replicate 16 7))).setCookie ≠ "" ∧
       (readCookie (some "abc") (newUUID (List.replicate 16 7))).uniq = "") ∨
      ((readCookie (some "abc") (newUUID (List.replicate 16 7))).setCookie = "" ∧
       (readCookie (some "abc") (newUUID (List.replicate 16 7))).uniq ≠ "")) ∧
     ((readCookie (some "abc") (newUUID (List.replicate 16 7))).secondVisit = true →
       (readCookie (some "abc") (newUUID (List.replicate 16 7))).uniq ≠ "")) :=
  ⟨by decide, C5_identity_fields (some "abc") (List.replicate 16 7) (by decide)⟩

/-! ## Host normalization (`normalizeHost`, `net.SplitHostPort`) -/

/-- Split at the LAST colon: `some (before, after)` or `none` when the
list has no colon.  This is Go's `i := last(hostPort, ':')`. -/
def splitAtLastColon : List Char → Option (List Char × List Char)
  | [] => none
  | c :: rest =>
    match splitAtLastColon rest with
    | some (a, b) => some (c :: a, b)
    | none => if c = ':' then some ([], rest) else none

/-- Go `net.SplitHostPort`, hand-translated from `net/ipsock.go`:
`none` models every error return. -/
def goSplitHostPort (hostPort : List Char) : Option (List Char × List Char) :=
  match splitAtLastColon hostPort with
  | none => none
  | some (pre, post) =>
    match hostPort with
    | '[' :: _ =>
      match hostPort.findIdx? (· = ']') with
      | none => none
      | some e =>
        if e + 1 = hostPort.length then none
        else if e + 1 = pre.length then
          let host := (hostPort.take e).drop 1
          if (hostPort.drop 1).contains '[' then none
          else if (hostPort.drop (e + 1)).contains ']' then none
          else some (host, post)
        else none
    | _ =>
      if pre.contains ':' then none
      else if hostPort.contains '[' then none
      else if hostPort.contains ']' then none
      else some (pre, post)

/-- Go `strings.ToLower` restricted to ASCII folding. -/
def toLowerChars (l : List Char) : List Char := l.map foldChar

/-- Go `normalizeHost` from the middleware. -/
def normalizeHost (host : String) : String :=
  if host = "" then ""
  else
    match goSplitHostPort host.data with
    | some (h, _) => ⟨toLowerChars h⟩
    | none => ⟨toLowerChars host.data⟩

/-- ASCII lowering is idempotent on lists. -/
theorem toLowerChars_idem (l : List Char) :
    toLowerChars (toLowerChars l) = toLowerChars l := by
  induction l with
  | nil => rfl
  | cons c rest ih =>
    simp only [toLowerChars, List.map_cons] at ih ⊢
    rw [foldChar_idem, ih]

/-- Lowering introduces no colon. -/
theorem mem_toLowerChars_colon {l : List Char} (h : ':' ∈ toLowerChars l) :
    ':' ∈ l := by
  unfold toLowerChars at h
  obtain ⟨c, hc, hfold⟩ := List.mem_map.mp h
  rwa [foldChar_eq_colon hfold] at hc

/-- A successful split means the list had a colon. -/
theorem splitAtLastColon_some_mem {l : List Char} {p : List Char × List Char}
    (h : splitAtLastColon l = some p) : ':' ∈ l := by
  induction l generalizing p with
  | nil => simp [splitAtLastColon] at h
  | cons c rest ih =>
    unfold splitAtLastColon at h
    cases hs : splitAtLastColon rest with
    | some q => exact List.mem_cons_of_mem _ (ih hs)
    | none =>
      rw [hs] at h
      by_cases hc : c = ':'
      · exact hc ▸ List.mem_cons_self _ _
      · simp [hc] at h

/-- A failed split means the list had no colon. -/
theorem splitAtLastColon_none {l : List Char} (h : splitAtLastColon l = none) :
    ':' ∉ l := by
  induction l with
  | nil => simp
  | cons c rest ih =>
    unfold splitAtLastColon at h
    cases hs : splitAtLastColon rest with
    | some q => simp [hs] at h
    | none =>
      rw [hs] at h
      by_cases hc : c = ':'
      · simp [hc] at h
      · simp [hc]
        exact ⟨fun he => hc he.symm, ih hs⟩

/-- With at most one colon in the list, the part before the last colon is
colon-free. -/
theorem splitAtLastColon_pre_colon_free {l a b : List Char}
    (hcount : l.count ':' ≤ 1) (h : splitAtLastColon l = some (a, b)) :
    ':' ∉ a := by
  induction l generalizing a b with
  | nil => simp [splitAtLastColon] at h
  | cons c rest ih =>
    unfold splitAtLastColon at h
    cases hs : splitAtLastColon rest with
    | some q =>
      rw [hs] at h
      obtain ⟨qa, qb⟩ := q
      have hmem : ':' ∈ rest := splitAtLastColon_some_mem hs
      have hc : c ≠ ':' := by
        intro hc
        subst hc
        have : 1 + 1 ≤ List.count ':' (':' :: rest) := by
          rw [List.count_cons_self]
          have := List.count_pos_iff.mpr hmem
          omega
        omega
      have hcount' : rest.count ':' ≤ 1 := by
        rw [List.count_cons_of_ne (fun he => hc he.symm)] at hcount
        exact hcount
      have ha : a = c :: qa := by
        simp at h
        exact h.1.symm
      have hb : qb = b := by
        simp at h
        exact h.2
      subst ha
      intro hmem2
      rcases List.mem_cons.mp hmem2 with heq | htail
      · exact hc heq.symm
      · exact ih hcount' (hb ▸ hs) htail
    | none =>
      rw [hs] at h
      by_cases hc : c = ':'
      · simp [hc] at h
        rw [h.1]
        simp
      · simp [hc] at h

/-! ## Middleware request / event synthesis (`enqueueEvent`) -/

/-- The parts of an `http.Request` the middleware reads. -/
structure Request where
  host : String
  path : String
  rawQuery : String
  xForwardedFor : String
  remoteAddr : String
  userAgent : String
  referer : String
  cookie : Option String
deriving Repr, DecidableEq

/-- The wire event (`traefikstats.event`); `timestamp` models the RFC 3339
serialization of the `time.Time` field. -/
structure Event where
  eventId : String
  timestamp : String
  host : String
  path : String
  query : String
  ip : String
  userAgent : String
  referrer : String
  contentType : String
  setCookie : String
  uniq : String
  secondVisit : Bool
deriving Repr, DecidableEq

/-- The `ip` computation of `enqueueEvent`: X-Forwarded-For first, else the
remote address, with a port stripped when `SplitHostPort` succeeds. -/
def eventIP (req : Request) : String :=
  let ip := if req.xForwardedFor = "" then req.remoteAddr else req.xForwardedFor
  match goSplitHostPort ip.data with
  | some (h, _) => ⟨h⟩
  | none => ip

/-- The event literal built by `enqueueEvent` (`eventId` and `timestamp`
are passed explicitly: `newUUID()` and `time.Now().UTC()`). -/
def mkEvent (req : Request) (contentType : String) (st : CookieState)
    (eventId timestamp : String) : Event :=
  { eventId := eventId, timestamp := timestamp,
    host := normalizeHost req.host, path := req.path, query := req.rawQuery,
    ip := eventIP req, userAgent := req.userAgent, referrer := req.referer,
    contentType := contentType, setCookie := st.setCookie, uniq := st.uniq,
    secondVisit := st.secondVisit }

/-- On a bracket-free, `]`-free host whose prefix before the last colon is
colon-free, `goSplitHostPort` succeeds with exactly that split. -/
theorem goSplitHostPort_nonbracket {l pre post : List Char}
    (hnb : '[' ∉ l) (hnr : ']' ∉ l) (hnc : ':' ∉ pre)
    (hs : splitAtLastColon l = some (pre, post)) :
    goSplitHostPort l = some (pre, post) := by
  unfold goSplitHostPort
  simp only [hs]
  split
  · exact absurd (List.mem_cons_self _ _) hnb
  · simp [hnc, hnb, hnr]

/-! ## Claim C9 — normalized host -/

/-- C9 (amended): the event host stored by `enqueueEvent` is
`normalizeHost req.Host`; it is always entirely lowercase, and it is
colon-free whenever the request host is not an IPv6 literal (no brackets
and at most one colon).  For IPv6 literals the claim fails: colons
remain (see the counterexample). -/
theorem C9_host_normalized (req : Request) (ct : String) (st : CookieState)
    (eid ts : String) :
    (mkEvent req ct st eid ts).host = normalizeHost req.host ∧
    toLowerChars (normalizeHost req.host).data = (normalizeHost req.host).data ∧
    ('[' ∉ req.host.data → ']' ∉ req.host.data → req.host.data.count ':' ≤ 1 →
      ':' ∉ (normalizeHost req.host).data) := by
  refine ⟨rfl, ?_, ?_⟩
  · unfold normalizeHost
    by_cases he : req.host = ""
    · simp [he, toLowerChars]
    · rw [if_neg he]
      cases goSplitHostPort req.host.data with
      | some p => exact toLowerChars_idem p.1
      | none => exact toLowerChars_idem req.host.data
  · intro hlb hrb hcount
    unfold normalizeHost
    by_cases he : req.host = ""
    · simp [he, toLowerChars]
    · rw [if_neg he]
      cases hs : splitAtLastColon req.host.data with
      | none =>
        have hnone : goSplitHostPort req.host.data = none := by
          unfold goSplitHostPort
          rw [hs]
        rw [hnone]
        intro hmem
        exact splitAtLastColon_none hs (mem_toLowerChars_colon hmem)
      | some p =>
        obtain ⟨pre, post⟩ := p
        have hpre : ':' ∉ pre := splitAtLastColon_pre_colon_free hcount hs
        rw [goSplitHostPort_nonbracket hlb hrb hpre hs]
        intro hmem
        exact hpre (mem_toLowerChars_colon hmem)

/-- C9 counterexample: an IPv6 host literal keeps its colons — the
normalized host of `[::1]:8080` is `::1`, which contains `':'`. -/
theorem C9_counterexample :
    normalizeHost "[::1]:8080" = "::1" ∧
    ':' ∈ (normalizeHost "[::1]:8080").data := by
  decide

/-- Concrete request used by the C9 witness. -/
def c9Request : Request :=
  { host := "Example.COM:8080", path := "/", rawQuery := "",
    xForwardedFor := "", remoteAddr := "10.0.0.1:4242", userAgent := "",
    referer := "", cookie := none }

/-- C9 witness: the amended theorem applied at a mixed-case host with a
port, discharging the non-IPv6 hypotheses. -/
theorem C9_witness :
    (mkEvent c9Request "text/html" (readCookie none "u") "e" "t").host =
      normalizeHost c9Request.host ∧
    ':' ∉ (normalizeHost c9Request.host).data :=
  ⟨(C9_host_normalized c9Request "text/html" (readCookie none "u") "e" "t").1,
   (C9_host_normalized c9Request "text/html" (readCookie none "u") "e" "t").2.2
     (by decide) (by decide) (by decide)⟩

/-! ## JSON values and `encoding/json` (de)serialization -/

/-- JSON values, for the NDJSON wire format and the queue payloads. -/
inductive Json where
  | str (s : String)
  | num (n : Int)
  | bool (b : Bool)
  | null
  | arr (items : List Json)
  | obj (fields : List (String × Json))

/-- Rendering `json.Marshal` of `traefikstats.event` in struct-field order; the
`time.Time` field marshals to its RFC 3339 string. -/
def eventToJson (e : Event) : Json :=
  .obj [("eventId", .str e.eventId), ("timestamp", .str e.timestamp),
        ("host", .str e.host), ("path", .str e.path), ("query", .str e.query),
        ("ip", .str e.ip), ("userAgent", .str e.userAgent),
        ("referrer", .str e.referrer), ("contentType", .str e.contentType),
        ("setCookie", .str e.setCookie), ("uniq", .str e.uniq),
        ("secondVisit", .bool e.secondVisit)]

/-- Last binding of a key in a JSON object (Go keeps the last duplicate). -/
def lookupField (fields : List (String × Json)) (key : String) : Option Json :=
  (fields.reverse.find? (fun p => p.1 == key)).map (·.2)

/-- Decode a string-typed struct field: absent or `null` yields the zero
value, a JSON string yields itself, any other type is an unmarshal error. -/
def decStrField (fields : List (String × Json)) (key : String) : Option String :=
  match lookupField fields key with
  | none => some ""
  | some (.str s) => some s
  | some .null => some ""
  | some _ => none

/-- Decode a bool-typed struct field. -/
def decBoolField (fields : List (String × Json)) (key : String) : Option Bool :=
  match lookupField fields key with
  | none => some false
  | some (.bool b) => some b
  | some .null => some false
  | some _ => none

/-- Decoding `json.Unmarshal` into `traefikstats.event`: top level must be an
object; unknown keys are ignored; mistyped known keys error.  (The
RFC 3339 format of `timestamp` is not validated here.) -/
def decodeEvent : Json → Option Event
  | .obj fields => do
    let eid ← decStrField fields "eventId"
    let ts ← decStrField fields "timestamp"
    let host ← decStrField fields "host"
    let path ← decStrField fields "path"
    let query ← decStrField fields "query"
    let ip ← decStrField fields "ip"
    let ua ← decStrField fields "userAgent"
    let ref ← decStrField fields "referrer"
    let ct ← decStrField fields "contentType"
    let sc ← decStrField fields "setCookie"
    let uq ← decStrField fields "uniq"
    let sv ← decBoolField fields "secondVisit"
    pure { eventId := eid, timestamp := ts, host := host, path := path,
           query := query, ip := ip, userAgent := ua, referrer := ref,
           contentType := ct, setCookie := sc, uniq := uq, secondVisit := sv }
  | _ => none

/-! ## Ingest server (`part_003` main) -/

/-- The sidecar's `ingestEvent` struct — note: it has NO `eventId` field. -/
structure IngestEvent where
  timestamp : String
  host : String
  path : String
  query : String
  ip : String
  userAgent : String
  referrer : String
  contentType : String
  setCookie : String
  uniq : String
  secondVisit : Bool
deriving Repr, DecidableEq

/-- Decoding `json.Unmarshal` into `ingestEvent`. -/
def decodeIngestEvent : Json → Option IngestEvent
  | .obj fields => do
    let ts ← decStrField fields "timestamp"
    let host ← decStrField fields "host"
    let path ← decStrField fields "path"
    let query ← decStrField fields "query"
    let ip ← decStrField fields "ip"
    let ua ← decStrField fields "userAgent"
    let ref ← decStrField fields "referrer"
    let ct ← decStrField fields "contentType"
    let sc ← decStrField fields "setCookie"
    let uq ← decStrField fields "uniq"
    let sv ← decBoolField fields "secondVisit"
    pure { timestamp := ts, host := host, path := path, query := query,
           ip := ip, userAgent := ua, referrer := ref, contentType := ct,
           setCookie := sc, uniq := uq, secondVisit := sv }
  | _ => none

/-- The sidecar's `ingestRequest` struct: a single JSON object with an
`events` array. -/
structure IngestRequest where
  events : List IngestEvent
deriving Repr, DecidableEq

/-- Decoding `json.NewDecoder(r.Body).Decode(&req)` semantics for `ingestRequest`:
the value must be an object; a missing (or null) `events` key leaves the
slice empty; a mistyped `events` errors. -/
def decodeIngestRequest : Json → Option IngestRequest
  | .obj fields =>
    match lookupField fields "events" with
    | none => some ⟨[]⟩
    | some .null => some ⟨[]⟩
    | some (.arr items) => (items.mapM decodeIngestEvent).map (⟨·⟩)
    | some _ => none
  | _ => none

/-- Go `contentTypeToType` from the ingest server. -/
def contentTypeToType (contentType : String) : String :=
  let ct := toLowerChars contentType.data
  if strHasPfx "application/atom+xml".data ct then "feed"
  else if strHasPfx "application/rss+xml".data ct then "feed"
  else ""

/-- The `analyzer.Line` the `/ingest` handler builds from one decoded
event.  `Date`/`Time` model the Go formats `2006-01-02` and `15:04:05`
applied to the UTC instant, as slices of its RFC 3339 text. -/
def mkLine (evt : IngestEvent) : Line :=
  { Date := ⟨evt.timestamp.data.take 10⟩,
    Time := ⟨(evt.timestamp.data.drop 11).take 8⟩,
    Host := evt.host, Path := evt.path, Query := evt.query, IP := evt.ip,
    UserAgent := evt.userAgent, Referrer := evt.referrer,
    Typ := contentTypeToType evt.contentType,
    Agent := "", OS := "", RefDomain := "", Mult := 0,
    SetCookie := evt.setCookie, Uniq := evt.uniq,
    SecondVisit := evt.secondVisit }

/-- The request body `StreamEvents` produces: one JSON value per NDJSON
line, in order (HTML escaping only affects the textual rendering). -/
def clientBody (events : List Event) : List Json := events.map eventToJson

/-- The `/ingest` handler on a POST body given as its sequence of JSON
values: `json.NewDecoder(r.Body).Decode(&req)` reads only the FIRST
value.  Returns the HTTP status and the batch passed to `Store.Insert`
(an empty body errors with 400 via `io.EOF`; the 500 store-error path is
not modelled). -/
def serverIngest (body : List Json) : Nat × List Line :=
  match body.head? with
  | none => (400, [])
  | some j =>
    match decodeIngestRequest j with
    | none => (400, [])
    | some req => (202, req.events.map mkLine)

/-! ## Claim C2 — the NDJSON wire format -/

/-- A concrete event as the middleware would queue it. -/
def c2Event : Event :=
  { eventId := "11111111-2222-3333-4444-555555555555",
    timestamp := "2024-01-02T03:04:05Z", host := "example.com",
    path := "/hello", query := "", ip := "1.2.3.4", userAgent := "UA",
    referrer := "", contentType := "text/html", setCookie := "",
    uniq := "aaaa", secondVisit := false }

/-- C2: the server does NOT decode the NDJSON stream line by line.  For a
one-event body produced by `StreamEvents`, the first (and only) line is a
well-formed event object, yet the handler decodes it as `ingestRequest`,
finds no `events` key (unknown fields are ignored), passes an EMPTY batch
to `Store.Insert`, and still answers 202.  The event is silently lost. -/
theorem C2_server_drops_ndjson :
    (clientBody [c2Event]).length = 1 ∧
    (decodeEvent (eventToJson c2Event)).isSome = true ∧
    (serverIngest (clientBody [c2Event])).1 = 202 ∧
    (serverIngest (clientBody [c2Event])).2 = [] := by
  decide

/-! ## Disk queue (`part_004`) -/

/-- One persisted row of the buffer's `events` table. -/
structure QEntry where
  id : Nat
  payload : Json

/-- The queue's state: the table rows in id order, the next AUTOINCREMENT
id, and the in-memory `count`. -/
structure QState where
  entries : List QEntry
  nextId : Nat
  count : Int

/-- State of `newDiskQueue` reopened over a buffer already holding `persisted`
rows (ids 1..n from the previous run's AUTOINCREMENT): `count` is
initialized from `SELECT COUNT(1) FROM events`. -/
def newDiskQueue (persisted : List Json) : QState :=
  { entries := persisted.enum.map (fun p => ⟨p.1 + 1, p.2⟩),
    nextId := persisted.length + 1,
    count := persisted.length }

/-- Operation `Enqueue`, with the SQL outcome passed explicitly (capacity blocking
is a concurrency feature outside this model).  On success the payload
gets the next id and `count` is incremented; on SQL failure the increment
is reverted before the error returns, leaving the state unchanged. -/
def enqueue (s : QState) (payload : Json) (sqlOk : Bool) : QState :=
  if sqlOk then
    { entries := s.entries ++ [⟨s.nextId, payload⟩], nextId := s.nextId + 1,
      count := s.count + 1 }
  else s

/-- Operation `FetchBatch`: scans up to `limit` rows in id order; malformed payloads
are logged, deleted and skipped; well-formed rows are returned AND kept.
`count` is not touched.  (`limit ≤ 0` returns nothing.) -/
def fetchBatch (s : QState) (limit : Nat) : List (Nat × Event) × QState :=
  if limit = 0 then ([], s)
  else
    (((s.entries.take limit).filterMap fun e =>
        (decodeEvent e.payload).map (fun ev => (e.id, ev))),
     { s with entries := ((s.entries.take limit).filter fun e =>
                 (decodeEvent e.payload).isSome) ++ s.entries.drop limit })

/-- Rows affected by `DELETE FROM events WHERE id <= lastID`. -/
def affectedBy (s : QState) (lastID : Nat) : Int :=
  ((s.entries.filter fun e => e.id ≤ lastID).length : Int)

/-- Operation `DeleteUpTo`: deletes all rows with `id ≤ lastID`; decrements `count`
by the rows affected, clamping at zero; `lastID ≤ 0` is a no-op. -/
def deleteUpTo (s : QState) (lastID : Nat) : QState :=
  if lastID = 0 then s
  else if 0 < affectedBy s lastID then
    { s with entries := s.entries.filter fun e => lastID < e.id,
             count := if s.count - affectedBy s lastID < 0 then 0
                      else s.count - affectedBy s lastID }
  else { s with entries := s.entries.filter fun e => lastID < e.id }

/-- The queue operations a client can run. -/
inductive QOp where
  | enq (payload : Json) (sqlOk : Bool)
  | fetch (limit : Nat)
  | del (lastID : Nat)

/-- State after one operation. -/
def applyOp (s : QState) : QOp → QState
  | .enq p ok => enqueue s p ok
  | .fetch n => (fetchBatch s n).2
  | .del i => deleteUpTo s i

/-- State after a sequence of operations. -/
def execOps (ops : List QOp) (s : QState) : QState := ops.foldl applyOp s

theorem fetchBatch_zero (s : QState) : fetchBatch s 0 = ([], s) := rfl

theorem fetchBatch_pos (s : QState) (limit : Nat) (hl : limit ≠ 0) :
    fetchBatch s limit =
      (((s.entries.take limit).filterMap fun e =>
          (decodeEvent e.payload).map (fun ev => (e.id, ev))),
       { s with entries := ((s.entries.take limit).filter fun e =>
                   (decodeEvent e.payload).isSome) ++ s.entries.drop limit }) := by
  unfold fetchBatch
  rw [if_neg hl]

theorem deleteUpTo_entries (s : QState) (lastID : Nat) (h : lastID ≠ 0) :
    (deleteUpTo s lastID).entries = s.entries.filter fun e => lastID < e.id := by
  unfold deleteUpTo
  rw [if_neg h]
  split <;> rfl

theorem deleteUpTo_nextId (s : QState) (lastID : Nat) :
    (deleteUpTo s lastID).nextId = s.nextId := by
  unfold deleteUpTo
  split
  · rfl
  · split <;> rfl

/-- Operation `FetchBatch` keeps every entry whose payload decodes (it deletes only
malformed rows). -/
theorem fetchBatch_keeps (s : QState) (limit : Nat) (e : QEntry)
    (he : e ∈ s.entries) (hd : (decodeEvent e.payload).isSome = true) :
    e ∈ (fetchBatch s limit).2.entries := by
  by_cases h0 : limit = 0
  · rw [h0, fetchBatch_zero]
    exact he
  · rw [fetchBatch_pos s limit h0]
    have hmem : e ∈ s.entries.take limit ∨ e ∈ s.entries.drop limit := by
      rw [← List.take_append_drop limit s.entries] at he
      exact List.mem_append.mp he
    rcases hmem with h | h
    · exact List.mem_append.mpr (Or.inl (List.mem_filter.mpr ⟨h, hd⟩))
    · exact List.mem_append.mpr (Or.inr h)

/-- Every id a fetch returns belongs to an entry of the state. -/
theorem fetchBatch_ids (s : QState) (limit : Nat) (pr : Nat × Event)
    (h : pr ∈ (fetchBatch s limit).1) : ∃ e ∈ s.entries, e.id = pr.1 := by
  by_cases h0 : limit = 0
  · rw [h0, fetchBatch_zero] at h
    exact absurd h (List.not_mem_nil pr)
  · rw [fetchBatch_pos s limit h0] at h
    obtain ⟨e, he, hmap⟩ := List.mem_filterMap.mp h
    refine ⟨e, List.take_subset _ _ he, ?_⟩
    cases hd : decodeEvent e.payload with
    | none => rw [hd] at hmap; simp at hmap
    | some ev =>
      rw [hd] at hmap
      have h2 : (e.id, ev) = pr := Option.some.inj hmap
      rw [← h2]

/-- Invariant: every stored id and every future id exceeds `l`. -/
def idsAbove (l : Nat) (s : QState) : Prop :=
  l < s.nextId ∧ ∀ e ∈ s.entries, l < e.id

/-- Operation `DeleteUpTo lastID` establishes the invariant (for a positive id below
the AUTOINCREMENT counter, as every previously fetched id is). -/
theorem idsAbove_deleteUpTo (s : QState) (lastID : Nat)
    (h0 : 0 < lastID) (hn : lastID < s.nextId) :
    idsAbove lastID (deleteUpTo s lastID) := by
  have hz : lastID ≠ 0 := Nat.pos_iff_ne_zero.mp h0
  refine ⟨by rw [deleteUpTo_nextId]; exact hn, ?_⟩
  intro e he
  rw [deleteUpTo_entries s lastID hz] at he
  simpa using (List.mem_filter.mp he).2

/-- Every queue operation preserves the invariant. -/
theorem idsAbove_applyOp (l : Nat) (s : QState) (op : QOp)
    (h : idsAbove l s) : idsAbove l (applyOp s op) := by
  obtain ⟨hn, he⟩ := h
  cases op with
  | enq p ok =>
    cases ok with
    | false => exact ⟨hn, he⟩
    | true =>
      refine ⟨Nat.lt_succ_of_lt hn, fun e hmem => ?_⟩
      have hmem2 : e ∈ s.entries ++ [QEntry.mk s.nextId p] := hmem
      rcases List.mem_append.mp hmem2 with hold | hnew
      · exact he e hold
      · have : e = QEntry.mk s.nextId p := by simpa using hnew
        rw [this]
        exact hn
  | fetch n =>
    by_cases hn0 : n = 0
    · have : applyOp s (QOp.fetch n) = s := by
        show (fetchBatch s n).2 = s
        rw [hn0, fetchBatch_zero]
      rw [this]
      exact ⟨hn, he⟩
    · have hstate : (fetchBatch s n).2.entries =
          ((s.entries.take n).filter fun e => (decodeEvent e.payload).isSome) ++
            s.entries.drop n := by
        rw [fetchBatch_pos s n hn0]
      have hnext : (fetchBatch s n).2.nextId = s.nextId := by
        rw [fetchBatch_pos s n hn0]
      refine ⟨by rw [show (applyOp s (QOp.fetch n)).nextId = (fetchBatch s n).2.nextId from rfl, hnext]; exact hn, ?_⟩
      intro e hmem
      have hmem2 : e ∈ ((s.entries.take n).filter fun e =>
          (decodeEvent e.payload).isSome) ++ s.entries.drop n := by
        rw [← hstate]
        exact hmem
      rcases List.mem_append.mp hmem2 with hkept | hrest
      · exact he e (List.take_subset _ _ (List.mem_filter.mp hkept).1)
      · exact he e (List.drop_subset _ _ hrest)
  | del i =>
    by_cases hi : i = 0
    · have : applyOp s (QOp.del i) = s := by
        show deleteUpTo s i = s
        unfold deleteUpTo
        rw [if_pos hi]
      rw [this]
      exact ⟨hn, he⟩
    · refine ⟨?_, ?_⟩
      · show l < (deleteUpTo s i).nextId
        rw [deleteUpTo_nextId]
        exact hn
      · intro e hmem
        have hmem2 : e ∈ s.entries.filter fun e => i < e.id := by
          have : (applyOp s (QOp.del i)).entries =
              s.entries.filter fun e => i < e.id := deleteUpTo_entries s i hi
          rw [← this]
          exact hmem
        exact he e (List.mem_filter.mp hmem2).1

/-- The invariant survives any operation sequence. -/
theorem idsAbove_execOps (l : Nat) (ops : List QOp) (s : QState)
    (h : idsAbove l s) : idsAbove l (execOps ops s) := by
  induction ops generalizing s with
  | nil => exact h
  | cons op rest ih => exact ih _ (idsAbove_applyOp l s op h)

/-! ## Claim C7 — fetch is non-destructive; delete advances delivery -/

/-- C7: `FetchBatch` removes no well-formed entry, and once
`DeleteUpTo lastID` ran (with `lastID` a positive id below the
AUTOINCREMENT counter, as every id of a fetched batch is), no later
`FetchBatch` — however many operations happen in between — returns an
entry with id ≤ lastID. -/
theorem C7_queue_delivery (s : QState) (limit n lastID : Nat) (ops : List QOp)
    (h0 : 0 < lastID) (hfresh : lastID < s.nextId) :
    (∀ e ∈ s.entries, (decodeEvent e.payload).isSome = true →
      e ∈ (fetchBatch s limit).2.entries) ∧
    (∀ pr ∈ (fetchBatch (execOps ops (deleteUpTo s lastID)) n).1, lastID < pr.1) := by
  refine ⟨fun e he hd => fetchBatch_keeps s limit e he hd, fun pr hpr => ?_⟩
  have hinv := idsAbove_execOps lastID ops _ (idsAbove_deleteUpTo s lastID h0 hfresh)
  obtain ⟨e, he, hid⟩ := fetchBatch_ids _ n pr hpr
  exact hid ▸ hinv.2 e he

/-- A concrete event payload for the queue witness. -/
def qEvent : Event :=
  { eventId := "q1", timestamp := "2024-05-06T07:08:09Z", host := "h",
    path := "/p", query := "", ip := "9.9.9.9", userAgent := "qa",
    referrer := "", contentType := "text/html", setCookie := "", uniq := "",
    secondVisit := false }

/-- A queue reopened over two persisted rows (one well-formed, one
malformed). -/
def c7State : QState := newDiskQueue [eventToJson qEvent, Json.null]

/-- C7 witness: the theorem applied to the concrete two-row queue, with a
delete of id 1 followed by a fresh enqueue. -/
theorem C7_witness :
    (∀ e ∈ c7State.entries, (decodeEvent e.payload).isSome = true →
      e ∈ (fetchBatch c7State 10).2.entries) ∧
    (∀ pr ∈ (fetchBatch (execOps [QOp.enq Json.null true] (deleteUpTo c7State 1)) 10).1,
      1 < pr.1) :=
  C7_queue_delivery c7State 10 10 1 [QOp.enq Json.null true] (by decide) (by decide)

/-! ## Claim C10 — the in-memory count stays non-negative -/

/-- One operation keeps `count` non-negative. -/
theorem count_nonneg_applyOp (s : QState) (op : QOp) (h : 0 ≤ s.count) :
    0 ≤ (applyOp s op).count := by
  cases op with
  | enq p ok =>
    cases ok with
    | false => exact h
    | true =>
      show (0 : Int) ≤ s.count + 1
      omega
  | fetch n =>
    show 0 ≤ (fetchBatch s n).2.count
    by_cases hn0 : n = 0
    · rw [hn0, fetchBatch_zero]
      exact h
    · rw [fetchBatch_pos s n hn0]
      exact h
  | del i =>
    show 0 ≤ (deleteUpTo s i).count
    unfold deleteUpTo
    split
    · exact h
    · split
      · show 0 ≤ (if s.count - affectedBy s i < 0 then 0
                  else s.count - affectedBy s i)
        split <;> omega
      · exact h

/-- C10: the disk queue's in-memory `count` starts at the number of
persisted rows and stays non-negative across every operation sequence —
`Enqueue` reverts its increment on SQL failure and `DeleteUpTo` clamps
the decrement at zero. -/
theorem C10_count_invariant (persisted : List Json) (ops : List QOp) :
    (newDiskQueue persisted).count = (persisted.length : Int) ∧
    0 ≤ (execOps ops (newDiskQueue persisted)).count := by
  refine ⟨rfl, ?_⟩
  have h0 : 0 ≤ (newDiskQueue persisted).count := by
    simp [newDiskQueue]
  generalize newDiskQueue persisted = s at h0
  induction ops generalizing s with
  | nil => exact h0
  | cons op rest ih => exact ih _ (count_nonneg_applyOp s op h0)

end BananStats
